import Mathlib



/-!
# Verification of the meeting-minutes transcription core

A shallow embedding, in Lean 4, of the parallel transcription pipeline of the
`meeting-minutes` repository, together with proofs of the specification's
claims about it.

Sources embedded here:

* `frontend/src-tauri/src/audio/transcription/worker.rs`
  (worker pool, overlap deduplication, Qwen output cleaning);
* `frontend/src-tauri/src/audio/transcription/openai_provider.rs`
  (OpenAI provider short-circuit validation);
* `frontend/src-tauri/src/qwen_asr_engine/qwen_asr_engine.rs`
  (GGUF validation, model download state machine).

Modelling conventions:

* Rust `String`/`&str` values are modelled as `List Char` (sequences of
  Unicode scalar values, exactly what Rust `chars()` iterates over).
* Rust `f64`/`f32` time and confidence values are modelled as exact
  rationals `ℚ`; the concrete constants appearing in the code
  (`2.0`, `4.0`, `1.5`, `0.2`, `0.85`, percentages) are all exactly
  representable in binary floating point and the operations performed on
  them in the claims at hand are exact, so no rounding behaviour is lost
  for the properties proved here.
* Fallible Rust functions returning `Result` are modelled with `Except`.
* Effects that leave the process (HTTP, the event sink, the file system)
  are modelled as explicit input tapes / output lists.
-/

/-! ## Rust string primitives

`str::trim`, `str::trim_start` and the regex class `\s` all use the Unicode
`White_Space` property.  We enumerate that (closed, stable) set of scalar
values explicitly. -/

/-- The Unicode `White_Space` property, as used by Rust `char::is_whitespace`
and by the default (Unicode) `\s` class of the Rust `regex` crate. -/
def rustIsWhitespace (c : Char) : Bool :=
  c.val = 0x09 || c.val = 0x0A || c.val = 0x0B || c.val = 0x0C || c.val = 0x0D ||
  c.val = 0x20 || c.val = 0x85 || c.val = 0xA0 || c.val = 0x1680 ||
  (0x2000 ≤ c.val && c.val ≤ 0x200A) ||
  c.val = 0x2028 || c.val = 0x2029 || c.val = 0x202F || c.val = 0x205F ||
  c.val = 0x3000

/-- Rust `str::trim_start` on a sequence of code points. -/
def rustTrimStart (l : List Char) : List Char :=
  l.dropWhile rustIsWhitespace

/-- Rust `str::trim_end` on a sequence of code points. -/
def rustTrimEnd (l : List Char) : List Char :=
  (l.reverse.dropWhile rustIsWhitespace).reverse

/-- Rust `str::trim` on a sequence of code points. -/
def rustTrim (l : List Char) : List Char :=
  rustTrimEnd (rustTrimStart l)

/-! ## Overlap deduplication (`worker.rs`, `remove_text_overlap`) -/

/-- Whether the suffix of `prev` of length `l` equals the prefix of `curr` of
length `l` (the comparison `prev_suffix == curr_prefix` of the source, which
slices `Vec<char>`s, i.e. code points). -/
def overlapMatches (prev curr : List Char) (l : Nat) : Bool :=
  prev.drop (prev.length - l) = curr.take l

/-- The `for overlap_len in min_overlap..=max_check` loop of
`remove_text_overlap`: `best_overlap` starts at `0` and is overwritten by
every matching length, so it ends at the largest matching length in
`[4, max_check]`, or `0`. -/
def bestOverlap (prev curr : List Char) : Nat :=
  let maxCheck := min curr.length prev.length
  (List.range' 4 (maxCheck - 3)).foldl
    (fun best l => if overlapMatches prev curr l then l else best) 0

/-- `remove_text_overlap` from `worker.rs`: trim `previous`, left-trim
`current`, find the longest suffix of `previous` (of length at least 4 and at
most `min` of the two lengths) matching a prefix of `current`, and drop it
from `current` (then left-trim again); otherwise return `current`. -/
def remove_text_overlap (previous current : List Char) : List Char :=
  let previous := rustTrim previous
  let current := rustTrimStart current
  if previous.isEmpty || current.isEmpty then
    current
  else
    let best := bestOverlap previous current
    if 4 ≤ best then rustTrimStart (current.drop best) else current

/-- The number of code points of (left-trimmed) `current` that
`remove_text_overlap` drops before its final left-trim. -/
def removedPrefixLen (previous current : List Char) : Nat :=
  let previous := rustTrim previous
  let current := rustTrimStart current
  if previous.isEmpty || current.isEmpty then 0
  else
    let best := bestOverlap previous current
    if 4 ≤ best then best else 0

/-- `remove_text_overlap` as the specification words it: compute the longest
suffix of `previous` equal to a prefix of `current` (in code points, bounded
by both lengths); if that longest match has length at least 4, drop it from
`current` and left-trim, otherwise return `current` unchanged.  Stated with
`Nat.findGreatest`, to be compared with the loop-based `remove_text_overlap`
above. -/
def remove_text_overlap_spec (previous current : List Char) : List Char :=
  let previous := rustTrim previous
  let current := rustTrimStart current
  let best := Nat.findGreatest (fun l => overlapMatches previous current l = true)
      (min current.length previous.length)
  if 4 ≤ best then rustTrimStart (current.drop best) else current

/-- Scenario S1's `previous` text. -/
def s1Previous : List Char := "let's review the roadmap for q2 and q3".toList

/-- Scenario S1's `current` text. -/
def s1Current : List Char := "roadmap for q2 and q3 plus hiring plan".toList

/-! ## Qwen output cleaning (`worker.rs`, `clean_qwen_asr_output`)

`clean_qwen_asr_output` is built from three concrete regular expressions of
the Rust `regex` crate (leftmost-first semantics):

* `LANGUAGE_PREFIX_RE = (?im)^\s*language\s+(?:NAMES)[:：]?\s*`,
  `replace_all` with the empty string;
* `LANGUAGE_SENTENCE_PREFIX_RE = (?i)([。！？.!?]\s*)language\s+(?:NAMES)[:：]?\s*`,
  `replace_all` with `$1`, iterated to a fixed point;
* `MULTISPACE_RE = [ \t]{2,}`, `replace_all` with a single space.

Because every quantified subpattern (`\s*`, `\s+`, `[:：]?`) is followed
either by a literal letter, by the end of the pattern, or by an
always-matchable tail, greedy maximal munch is exact and the matcher below is
a faithful deterministic rendering of those patterns.  The alternation
`(?:English|Chinese|…)` is leftmost-first: the first listed name matching at
the position wins (the tail `[:：]?\s*` always matches, so no backtracking
across alternatives can occur).

The scanning functions take an explicit fuel argument; each scanning step
consumes at least one input character, so fuel equal to the input length
(as passed by `clean_qwen_asr_output`) is always sufficient and the fuel-out
branch is never reached on the actual calls. -/

/-- Simple case folding as performed by `(?i)` for the ASCII pattern letters
appearing in the regexes: ASCII case plus the only two non-ASCII scalars
whose simple case folding lands on an ASCII letter (KELVIN SIGN → `k`,
LATIN SMALL LETTER LONG S → `s`). -/
def foldChar (c : Char) : Char :=
  if c.val = 0x212A then 'k'
  else if c.val = 0x017F then 's'
  else c.toLower

/-- Case-insensitive literal match: consume pattern `p` at the head of `l`,
returning the rest of `l` on success. -/
def matchCaseInsensitive : List Char → List Char → Option (List Char)
  | [], l => some l
  | _ :: _, [] => none
  | p :: ps, c :: cs =>
    if foldChar c = foldChar p then matchCaseInsensitive ps cs else none

/-- The closed allow-list of the regexes, in the alternation order of the
source. -/
def qwenLanguageNames : List (List Char) :=
  ["English", "Chinese", "Japanese", "Korean", "French", "German", "Spanish",
   "Portuguese", "Russian", "Italian", "Dutch", "Turkish", "Arabic", "Polish",
   "Swedish", "Norwegian", "Danish", "Finnish", "Hungarian", "Czech",
   "Romanian", "Bulgarian", "Greek", "Serbian", "Croatian", "Slovak",
   "Slovenian", "Ukrainian", "Catalan", "Vietnamese", "Thai", "Indonesian",
   "Malay", "Hindi", "Tamil", "Telugu", "Bengali", "Urdu", "Persian",
   "Hebrew", "Cantonese", "Yue", "None", "null"].map String.toList

/-- Leftmost-first alternation over the name list. -/
def matchFirstName : List (List Char) → List Char → Option (List Char)
  | [], _ => none
  | n :: ns, l =>
    match matchCaseInsensitive n l with
    | some rest => some rest
    | none => matchFirstName ns l

/-- Drop a maximal whitespace run, remembering whether the last dropped
character was a newline (i.e. whether the position after the match is an
`(?m)` line start). -/
def dropWhitespaceNl : List Char → Bool → List Char × Bool
  | [], lastNl => ([], lastNl)
  | c :: rest, lastNl =>
    if rustIsWhitespace c then dropWhitespaceNl rest (c = '\n')
    else (c :: rest, lastNl)

/-- Match the shared regex tail `language\s+(?:NAMES)[:：]?\s*` at the head
of `l`.  Returns the rest of the input and whether the match's last
character was a newline. -/
def matchLanguageTag (l : List Char) : Option (List Char × Bool) :=
  match matchCaseInsensitive ("language".toList) l with
  | none => none
  | some l1 =>
    match l1 with
    | [] => none
    | c :: rest =>
      if rustIsWhitespace c then
        let l2 := rest.dropWhile rustIsWhitespace
        match matchFirstName qwenLanguageNames l2 with
        | none => none
        | some l3 =>
          let l4 := match l3 with
            | [] => ([] : List Char)
            | d :: r => if d = ':' ∨ d = '：' then r else d :: r
          some (dropWhitespaceNl l4 false)
      else none

/-- Match `^\s*language\s+(?:NAMES)[:：]?\s*` at a line-start position. -/
def matchLinePrefix (l : List Char) : Option (List Char × Bool) :=
  matchLanguageTag (l.dropWhile rustIsWhitespace)

/-- `LANGUAGE_PREFIX_RE.replace_all(text, "")`: scan the input, attempting a
match at every `(?m)` line-start position; on a match, drop it and continue
after it (`replace_all` matches are non-overlapping and are located in the
original string). -/
def lineStripGo : Nat → Bool → List Char → List Char
  | 0, _, l => l
  | _, _, [] => []
  | fuel + 1, atStart, c :: rest =>
    if atStart then
      match matchLinePrefix (c :: rest) with
      | some (rest', nl) => lineStripGo fuel nl rest'
      | none => c :: lineStripGo fuel (c = '\n') rest
    else c :: lineStripGo fuel (c = '\n') rest

/-- Sentence terminator class `[。！？.!?]`. -/
def isSentenceTerm (c : Char) : Bool :=
  c = '。' || c = '！' || c = '？' || c = '.' || c = '!' || c = '?'

/-- Match `([。！？.!?]\s*)language\s+(?:NAMES)[:：]?\s*` at the head of `l`,
returning capture group 1 and the rest of the input after the match. -/
def matchSentencePrefix (l : List Char) : Option (List Char × List Char) :=
  match l with
  | [] => none
  | c :: rest =>
    if isSentenceTerm c then
      let ws := rest.takeWhile rustIsWhitespace
      let l1 := rest.dropWhile rustIsWhitespace
      match matchLanguageTag l1 with
      | some (r, _) => some (c :: ws, r)
      | none => none
    else none

/-- `LANGUAGE_SENTENCE_PREFIX_RE.replace_all(text, "$1")`: one left-to-right
pass; a matched span is replaced by its first capture group and scanning
resumes after the span. -/
def sentenceGo : Nat → List Char → List Char
  | 0, l => l
  | _, [] => []
  | fuel + 1, c :: rest =>
    match matchSentencePrefix (c :: rest) with
    | some (g1, r) => g1 ++ sentenceGo fuel r
    | none => c :: sentenceGo fuel rest

/-- The source's `loop { … replace_all … }` around the sentence regex:
iterate `replace_all` until the string no longer changes.  Every productive
pass strictly shortens the string, so `length + 1` passes suffice. -/
def sentenceFixGo : Nat → List Char → List Char
  | 0, l => l
  | fuel + 1, l =>
    let next := sentenceGo l.length l
    if next = l then l else sentenceFixGo fuel next

/-- The class `[ \t]` of `MULTISPACE_RE`. -/
def isSpaceOrTab (c : Char) : Bool :=
  c = ' ' || c = '\t'

/-- `MULTISPACE_RE.replace_all(text, " ")`: collapse every maximal run of two
or more spaces/tabs into a single space (a lone space or tab is kept
unchanged). -/
def collapseGo : Nat → List Char → List Char
  | 0, l => l
  | _, [] => []
  | fuel + 1, c :: rest =>
    if isSpaceOrTab c then
      match rest with
      | d :: _ =>
        if isSpaceOrTab d then ' ' :: collapseGo fuel (rest.dropWhile isSpaceOrTab)
        else c :: collapseGo fuel rest
      | [] => [c]
    else c :: collapseGo fuel rest

/-- `clean_qwen_asr_output` from `worker.rs`: trim; strip line-start
language tags; strip post-terminator language tags to a fixed point;
collapse multi-space runs; trim. -/
def clean_qwen_asr_output (text : List Char) : List Char :=
  let cleaned := rustTrim text
  if cleaned.isEmpty then cleaned
  else
    let cleaned := lineStripGo cleaned.length true cleaned
    let cleaned := sentenceFixGo (cleaned.length + 1) cleaned
    let cleaned := collapseGo cleaned.length cleaned
    rustTrim cleaned

/-! ## Worker pool (`worker.rs`, `start_transcription_task`)

The worker loop is modelled as a deterministic step over an explicit state.
The transcription engine is an external collaborator, so each incoming
`AudioChunk` is paired with the engine's behaviour on it (`EngineResponse`).
With `NUM_WORKERS = 1` (the source's fixed configuration) the single worker
consumes the dispatched chunks in order, so a run is a left fold of the
per-chunk step over the dispatched list.  The wall-clock `timestamp` string
and the constant `source` field of `TranscriptUpdate`, the log lines, and the
`transcription-progress` / `speech-detected` / warning event payloads are not
needed by any claim and are not modelled (the speech-detected *flag* is). -/

/-- Modelled from the spec: the provider error taxonomy of §4.1
(`AudioTooShort{samples, minimum}`, `ModelNotLoaded`, `EngineFailed(msg)`);
the file `provider.rs` declaring this enum is not among the given sources. -/
inductive TranscriptionError
  | audioTooShort (samples minimum : Nat)
  | modelNotLoaded
  | engineFailed (message : List Char)
deriving DecidableEq, Repr

/-- The engine's behaviour on one chunk, as observed by the worker loop:
either `is_model_loaded()` returned false, or `transcribe_chunk_with_provider`
returned an error, or it returned `(text, confidence, is_partial)`. -/
inductive EngineResponse
  | unloaded
  | failed (e : TranscriptionError)
  | transcribed (text : List Char) (confidence : Option ℚ) (isPartial : Bool)
deriving DecidableEq

/-- An audio chunk as the worker sees it (`data` is retained only through its
length, which is all the loop reads besides passing the samples on). -/
structure AudioChunk where
  chunk_id : Nat
  timestamp : ℚ
  sample_rate : Nat
  dataLen : Nat
deriving DecidableEq

/-- `chunk.data.len() as f64 / chunk.sample_rate as f64`. -/
def chunkDuration (c : AudioChunk) : ℚ :=
  (c.dataLen : ℚ) / (c.sample_rate : ℚ)

/-- The emitted `transcript-update` payload (wall-clock `timestamp` and the
constant `source` omitted, see the section comment). -/
structure TranscriptUpdate where
  text : List Char
  sequence_id : Nat
  chunk_start_time : ℚ
  is_partial : Bool
  confidence : ℚ
  audio_start_time : ℚ
  audio_end_time : ℚ
  duration : ℚ
  is_refinement : Bool
deriving DecidableEq

/-- The worker-pool state visible to the claims: the completion counter, the
global sequence counter, the speech-detected flag, the dedup state
(`LAST_TRANSCRIPT_STATE`), and the stream of emitted final updates. -/
structure WorkerState where
  chunks_completed : Nat
  sequence_counter : Nat
  speech_detected : Bool
  last_text : List Char
  last_audio_end_time : Option ℚ
  emitted : List TranscriptUpdate
deriving DecidableEq

/-- The state at pool start (after `reset_speech_detected_flag`). -/
def initialWorkerState : WorkerState :=
  { chunks_completed := 0
    sequence_counter := 0
    speech_detected := false
    last_text := []
    last_audio_end_time := none
    emitted := [] }

/-- Refinement detection (`worker.rs` lines 245-255): the segment starts more
than 2 s before the last emitted segment's end and lasts more than 4 s. -/
def isRefinementOf (lastEnd : Option ℚ) (start dur : ℚ) : Bool :=
  match lastEnd with
  | none => false
  | some lastEnd => decide (start < lastEnd - 2) && decide (4 < dur)

/-- Dedup gating (`worker.rs` lines 278-283): not a refinement, and the gap
to the last segment lies in `[-0.2 s, 1.5 s]`. -/
def shouldDedupOf (isRef : Bool) (lastEnd : Option ℚ) (start : ℚ) : Bool :=
  !isRef &&
    match lastEnd with
    | none => false
    | some lastEnd =>
      decide (-(1/5 : ℚ) ≤ start - lastEnd) && decide (start - lastEnd ≤ 3/2)

/-- Result of the non-partial dedup-and-update block. -/
structure DedupResult where
  deduped : List Char
  is_refinement : Bool
  last_text : List Char
  last_audio_end_time : Option ℚ
deriving DecidableEq

/-- The dedup / refinement block of the worker (`worker.rs` lines 245-305):
compute `is_refinement`; for a non-partial segment, dedup when gated and
refresh `LAST_TRANSCRIPT_STATE` (for refinements the stored end time becomes
the max of old and new); partial segments are passed through and leave the
state unchanged. -/
def dedupAndUpdate (lastText : List Char) (lastEnd : Option ℚ)
    (text : List Char) (start dur : ℚ) (isPartial : Bool) : DedupResult :=
  let audio_end_time := start + dur
  let is_refinement := isRefinementOf lastEnd start dur
  if !isPartial then
    let should_dedup := shouldDedupOf is_refinement lastEnd start
    let deduped := if should_dedup then remove_text_overlap lastText text else text
    let newEnd := if is_refinement then
        some (max audio_end_time (lastEnd.getD 0))
      else
        some audio_end_time
    { deduped := deduped
      is_refinement := is_refinement
      last_text := text
      last_audio_end_time := newEnd }
  else
    { deduped := text
      is_refinement := is_refinement
      last_text := lastText
      last_audio_end_time := lastEnd }

/-- One iteration of the worker loop on a received chunk (`worker.rs` lines
149-406).  `τ` is the engine's confidence threshold (0.3 for Whisper and
trait providers, 0.0 for Parakeet / QwenASR).  Every branch — model-unloaded
skip, short-audio skip, model-unloaded-during-transcription skip, other
engine errors, threshold / whitespace rejection, dedup-empty skip, and
successful emission — increments `chunks_completed` exactly once. -/
def processChunk (τ : ℚ) (w : WorkerState) (c : AudioChunk)
    (resp : EngineResponse) : WorkerState :=
  match resp with
  | .unloaded =>
    -- "Model unloaded, but continuing to preserve chunk"
    { w with chunks_completed := w.chunks_completed + 1 }
  | .failed (.audioTooShort _ _) =>
    -- skipped silently, counted as completed
    { w with chunks_completed := w.chunks_completed + 1 }
  | .failed .modelNotLoaded =>
    { w with chunks_completed := w.chunks_completed + 1 }
  | .failed (.engineFailed _) =>
    -- a transcription-warning event is emitted, then the chunk is counted
    { w with chunks_completed := w.chunks_completed + 1 }
  | .transcribed text conf isPartial =>
    let dur := chunkDuration c
    let meets_threshold :=
      match conf with
      | none => true
      | some x => decide (τ ≤ x)
    if !(rustTrim text).isEmpty && meets_threshold then
      let w := { w with speech_detected := true }
      let sequence_id := w.sequence_counter
      let w := { w with sequence_counter := w.sequence_counter + 1 }
      let start := c.timestamp
      let r := dedupAndUpdate w.last_text w.last_audio_end_time text start dur isPartial
      let w := { w with last_text := r.last_text
                        last_audio_end_time := r.last_audio_end_time }
      if (rustTrim r.deduped).isEmpty then
        -- "Transcript fully overlapped with previous, skipping"
        { w with chunks_completed := w.chunks_completed + 1 }
      else
        let update : TranscriptUpdate :=
          { text := r.deduped
            sequence_id := sequence_id
            chunk_start_time := c.timestamp
            is_partial := isPartial
            confidence := conf.getD (17/20)
            audio_start_time := start
            audio_end_time := start + dur
            duration := dur
            is_refinement := r.is_refinement }
        { w with emitted := w.emitted ++ [update]
                 chunks_completed := w.chunks_completed + 1 }
    else
      { w with chunks_completed := w.chunks_completed + 1 }

/-- A full run of the pool on a dispatched sequence: the dispatcher counts
every chunk into `chunks_queued` and forwards it; the single worker drains
the queue in order. -/
def runPool (τ : ℚ) (inputs : List (AudioChunk × EngineResponse)) : WorkerState :=
  inputs.foldl (fun w p => processChunk τ w p.1 p.2) initialWorkerState

/-- `chunks_queued` after the dispatcher has seen the whole input. -/
def chunksQueued (inputs : List (AudioChunk × EngineResponse)) : Nat :=
  inputs.length

/-- Scenario S5: the previous segment ends at 10 s and the incoming final
chunk has `start = 6 s`, `duration = 5 s` (80000 samples at 16 kHz). -/
def s5State : WorkerState :=
  { initialWorkerState with
    last_text := "we covered the quarterly goals".toList
    last_audio_end_time := some 10 }

/-- Scenario S5's chunk. -/
def s5Chunk : AudioChunk :=
  { chunk_id := 7, timestamp := 6, sample_rate := 16000, dataLen := 80000 }

/-- The sequence-id invariant carried by the worker state: emitted updates
have strictly increasing ids, all below the current counter. -/
def SeqInvariant (w : WorkerState) : Prop :=
  w.emitted.Pairwise (fun a b => a.sequence_id < b.sequence_id) ∧
  ∀ u ∈ w.emitted, u.sequence_id < w.sequence_counter

/-- A processing history in which the middle chunk's final is fully
overlapped by the previous segment: its deduped text is empty, so the
sequence id it consumed (1) is never emitted. -/
def gapHistory : List (AudioChunk × EngineResponse) :=
  [({ chunk_id := 0, timestamp := 0, sample_rate := 16000, dataLen := 16000 },
      .transcribed ("we should align on launch timeline".toList) none false),
   ({ chunk_id := 1, timestamp := 1, sample_rate := 16000, dataLen := 16000 },
      .transcribed ("launch timeline".toList) none false),
   ({ chunk_id := 2, timestamp := 2, sample_rate := 16000, dataLen := 16000 },
      .transcribed ("design review starts tomorrow".toList) none false)]

/-! ## OpenAI provider (`openai_provider.rs`, `OpenAIProvider::transcribe`) -/

/-- How far `OpenAIProvider::transcribe` gets before any network I/O: either
it fails during validation, or it reaches the `client.post(..).send()`
call (`httpRequest` records the sample count and the normalized language
field of the multipart form; the WAV body built from the samples between the
validation and the send is elided, as no claim concerns its bytes). -/
inductive OpenAIOutcome
  | failed (e : TranscriptionError)
  | httpRequest (samples : Nat) (language : Option (List Char))
deriving DecidableEq

/-- `OpenAIProvider::normalize_language`: trim, drop empty strings and the
`auto*` sentinels (compared case-insensitively; the sentinels are ASCII, so
ASCII lowercasing is faithful here). -/
def normalize_language (language : Option (List Char)) : Option (List Char) :=
  match language with
  | none => none
  | some lang =>
    let lang := rustTrim lang
    if lang.isEmpty then none
    else
      let lower := lang.map Char.toLower
      if lower = "auto".toList ∨ lower = "auto-translate".toList ∨
          lower = "auto_detect".toList ∨ lower = "auto-detect".toList then
        none
      else some lang

/-- `OpenAIProvider::transcribe` up to the send: empty/whitespace key fails
first, then audio shorter than 1600 samples (100 ms at 16 kHz) is rejected,
and only otherwise is the HTTP request issued. -/
def openai_transcribe (api_key : List Char) (audio : List ℚ)
    (language : Option (List Char)) : OpenAIOutcome :=
  if (rustTrim api_key).isEmpty then
    .failed (.engineFailed ("OpenAI API key is missing".toList))
  else if audio.length < 1600 then
    .failed (.audioTooShort audio.length 1600)
  else
    .httpRequest audio.length (normalize_language language)

/-! ## GGUF validation (`qwen_asr_engine.rs`, `validate_gguf_file`) -/

/-- The magic bytes `0x47 0x47 0x55 0x46` (ASCII `GGUF`). -/
def ggufMagicBytes : List (Fin 256) :=
  [⟨0x47, by norm_num⟩, ⟨0x47, by norm_num⟩, ⟨0x55, by norm_num⟩,
   ⟨0x46, by norm_num⟩]

/-- `u32::from_le_bytes` on the four header bytes. -/
def u32FromLeBytes (b0 b1 b2 b3 : Fin 256) : Nat :=
  b0.val + 256 * b1.val + 65536 * b2.val + 16777216 * b3.val

/-- `QwenAsrEngine::validate_gguf_file`, with the file modelled as its byte
sequence (`metadata.len()` is the list length; `read_exact` of the 4-byte
header fails on a shorter file): reject files under 1024 bytes, then demand
the little-endian u32 `0x46554747` at the start. -/
def validate_gguf_file (file : List (Fin 256)) : Except (List Char) Unit :=
  if file.length < 1024 then
    .error ("File too small to be a valid GGUF".toList)
  else
    match file with
    | b0 :: b1 :: b2 :: b3 :: _ =>
      if u32FromLeBytes b0 b1 b2 b3 = 0x46554747 then .ok ()
      else .error ("Invalid GGUF magic header".toList)
    | _ => .error ("Failed to read GGUF header".toList)

/-! ## Model download (`qwen_asr_engine.rs`, `download_model_detailed`)

The downloader is modelled from the point where the engine has decided to
download: the HTTP response and the byte stream are input tapes, the
progress callback is an output list of the delivered `percent` values, and
the per-model catalogue `status` / `active_downloads` membership are the
tracked state.  `f64` percent arithmetic
(`((downloaded / total) * 100.0).min(cap) as u8`) is modelled as exact
rational arithmetic followed by the truncating cast, i.e. `min cap
(downloaded * 100 / total)` in `Nat`.  Directory creation, file open/create
and the HTTP client construction are modelled as succeeding (no claim
concerns their failure paths). -/

/-- `ModelStatus` from `qwen_asr_engine.rs` (for the single model being
downloaded). -/
inductive ModelStatus
  | available
  | missing
  | downloading (progress : Nat)
  | error (msg : List Char)
  | corrupted (file_size expected_min_size : Nat)
deriving DecidableEq

/-- The distinct error returns of `download_model_detailed`. -/
inductive DlError
  | alreadyActive
  | sendFailed
  | badStatus
  | cancelled
  | timeout
  | readFailed
  | writeFailed
  | flushFailed
deriving DecidableEq

/-- One iteration's worth of external input to the download loop: the
cancel flag may be observed set at the top of the iteration; otherwise the
30 s timeout fires, or the stream yields an error, or a chunk arrives
(carrying whether the buffered write succeeds and whether ≥ 500 ms have
elapsed since the last report). -/
inductive DlStreamEvent
  | cancelObserved
  | timeout
  | readErr
  | chunk (bytes : Nat) (writeOk : Bool) (timeThresh : Bool)
deriving DecidableEq

/-- The HTTP response to the (possibly ranged) GET. -/
inductive DlResponse
  | sendErr
  | partialContent (contentLength : Option Nat)
  | okStatus (contentLength : Option Nat)
  | badStatus
deriving DecidableEq

/-- Outcome of a `download_model_detailed` run: the returned `Result`, the
model's catalogue status, whether the model name is still in
`active_downloads`, and the `percent` values delivered to the progress
callback, in order. -/
structure DlResult where
  result : Except DlError Unit
  status : ModelStatus
  active : Bool
  emitted : List Nat

/-- `DownloadProgress::new`'s percent (`cap = 100`) and the loop's
`overall_progress` (`cap = 99`): `min cap (downloaded·100/total)` for a
positive total, else 0. -/
def percentFloor (cap downloaded total : Nat) : Nat :=
  if 0 < total then min cap (downloaded * 100 / total) else 0

/-- The streaming loop of `download_model_detailed` (source lines 549-696):
per iteration check the cancel flag, apply the 30 s timeout to the next
stream item, write the chunk, and report progress when the integer percent
advanced or the 500 ms threshold elapsed; at end of stream flush, report a
final `DownloadProgress::new(total, total, _)`, and mark the model
Available.  Returns `(result, final status, emitted percents)`; every exit
of the loop also removes the model from `active_downloads`, which the
caller records. -/
def dlLoop (total : Nat) (flushOk : Bool) :
    List DlStreamEvent → Nat → Nat → ModelStatus →
    Except DlError Unit × ModelStatus × List Nat
  | [], _, _, status =>
    if flushOk then
      (.ok (), .available, [percentFloor 100 total total])
    else
      (.error .flushFailed, status, [])
  | e :: rest, downloaded, lastReported, status =>
    match e with
    | .cancelObserved => (.error .cancelled, status, [])
    | .timeout => (.error .timeout, .missing, [])
    | .readErr => (.error .readFailed, .missing, [])
    | .chunk bytes writeOk timeThresh =>
      if writeOk then
        let downloaded := downloaded + bytes
        let overall := percentFloor 99 downloaded total
        if lastReported < overall || timeThresh then
          let r := dlLoop total flushOk rest downloaded overall (.downloading overall)
          (r.1, r.2.1, percentFloor 100 downloaded total :: r.2.2)
        else
          dlLoop total flushOk rest downloaded lastReported status
      else
        (.error .writeFailed, status, [])

/-- `QwenAsrEngine::download_model_detailed` (source lines 388-697): reject
a concurrent download; mark active and `Downloading{0}`; skip the download
if a partial file already holds ≥ 99 % of the expected size and validates;
otherwise derive the total from the response (206: `existing + remaining`,
resuming from `existing`; 2xx: `content_length` or the catalogue estimate)
and run the streaming loop.  All error exits of the loop, and the
bad-status/send-failure exits, remove the model from `active_downloads`;
only the timeout and stream-read-error exits also revert the status to
`Missing`. -/
def download_model_detailed (st0 : ModelStatus) (alreadyActive : Bool)
    (expected_size existing_size : Nat) (fileValidates : Bool)
    (resp : DlResponse) (events : List DlStreamEvent) (flushOk : Bool) :
    DlResult :=
  if alreadyActive then
    { result := .error .alreadyActive, status := st0, active := true, emitted := [] }
  else if 0 < existing_size ∧ expected_size * 99 / 100 ≤ existing_size ∧
      fileValidates then
    -- already downloaded and valid: mark Available, remove from active
    { result := .ok (), status := .available, active := false, emitted := [] }
  else
    match resp with
    | .sendErr =>
      { result := .error .sendFailed, status := .downloading 0, active := false,
        emitted := [] }
    | .badStatus =>
      { result := .error .badStatus, status := .downloading 0, active := false,
        emitted := [] }
    | .partialContent cl =>
      let total := existing_size + cl.getD 0
      let r := dlLoop total flushOk events existing_size 0 (.downloading 0)
      { result := r.1, status := r.2.1, active := false, emitted := r.2.2 }
    | .okStatus cl =>
      let total := cl.getD expected_size
      let r := dlLoop total flushOk events 0 0 (.downloading 0)
      { result := r.1, status := r.2.1, active := false, emitted := r.2.2 }

/-- A minimal well-formed GGUF file: the magic followed by 1020 zero bytes. -/
def ggufTestFile : List (Fin 256) :=
  ggufMagicBytes ++ List.replicate 1020 ⟨0, by norm_num⟩

/-! ## Theorems -/

/-! Basic facts about the `best_overlap` fold. -/

/-- The fold of the source's search loop either keeps its accumulator or
returns a member of the candidate list satisfying the predicate. -/
theorem foldl_pick_eq_or_mem (P : Nat → Bool) :
    ∀ (xs : List Nat) (acc : Nat),
      xs.foldl (fun best l => if P l then l else best) acc = acc ∨
      (xs.foldl (fun best l => if P l then l else best) acc ∈ xs ∧
        P (xs.foldl (fun best l => if P l then l else best) acc) = true) := by
  intro xs
  induction xs with
  | nil => intro acc; left; rfl
  | cons x xs ih =>
    intro acc
    by_cases hx : P x = true
    · have hstep : (x :: xs).foldl (fun best l => if P l then l else best) acc
          = xs.foldl (fun best l => if P l then l else best) x := by
        rw [List.foldl_cons]; simp [hx]
      rcases ih x with h | h
      · right
        rw [hstep, h]
        exact ⟨List.mem_cons_self x xs, hx⟩
      · right
        rw [hstep]
        exact ⟨List.mem_cons_of_mem x h.1, h.2⟩
    · have hx' : P x = false := by
        cases hPx : P x with
        | false => rfl
        | true => exact absurd hPx hx
      have hstep : (x :: xs).foldl (fun best l => if P l then l else best) acc
          = xs.foldl (fun best l => if P l then l else best) acc := by
        rw [List.foldl_cons, hx']
        simp
      rcases ih acc with h | h
      · left; rw [hstep, h]
      · right
        rw [hstep]
        exact ⟨List.mem_cons_of_mem x h.1, h.2⟩

/-- Over a list sorted in nondecreasing order, the fold of the search loop
dominates every member satisfying the predicate (the loop keeps the *last*,
hence largest, match). -/
theorem foldl_pick_ge (P : Nat → Bool) :
    ∀ (xs : List Nat) (acc : Nat), xs.Sorted (· ≤ ·) →
      ∀ l ∈ xs, P l = true →
        l ≤ xs.foldl (fun best l => if P l then l else best) acc := by
  intro xs
  induction xs with
  | nil => intro acc _ l hl; exact absurd hl (List.not_mem_nil l)
  | cons x xs ih =>
    intro acc hsort l hl hP
    have hsort' : xs.Sorted (· ≤ ·) := hsort.of_cons
    rcases List.mem_cons.mp hl with rfl | hl'
    · -- l is the head; after this step the accumulator is l itself
      have hstep : (l :: xs).foldl (fun best m => if P m then m else best) acc
          = xs.foldl (fun best m => if P m then m else best) l := by
        rw [List.foldl_cons]; simp [hP]
      rw [hstep]
      rcases foldl_pick_eq_or_mem P xs l with h | h
      · exact h.ge
      · exact List.rel_of_sorted_cons hsort _ h.1
    · rw [List.foldl_cons]
      exact ih _ hsort' l hl' hP

/-- The loop result is `0` or a matching overlap length in `[4, maxCheck]`. -/
theorem bestOverlap_eq_zero_or (p c : List Char) :
    bestOverlap p c = 0 ∨
      (4 ≤ bestOverlap p c ∧ bestOverlap p c ≤ min c.length p.length ∧
        overlapMatches p c (bestOverlap p c) = true) := by
  simp only [bestOverlap]
  rcases foldl_pick_eq_or_mem (overlapMatches p c)
      (List.range' 4 (min c.length p.length - 3)) 0 with h | h
  · left; exact h
  · right
    obtain ⟨hmem, hP⟩ := h
    obtain ⟨h4, hlt⟩ := List.mem_range'_1.mp hmem
    exact ⟨h4, by omega, hP⟩

/-- The loop result dominates every matching overlap length in `[4, maxCheck]`:
iterating upwards and keeping the last match yields the largest one. -/
theorem le_bestOverlap (p c : List Char) (l : Nat) (h4 : 4 ≤ l)
    (hle : l ≤ min c.length p.length) (hm : overlapMatches p c l = true) :
    l ≤ bestOverlap p c := by
  simp only [bestOverlap]
  refine foldl_pick_ge (overlapMatches p c) _ 0 ?_ l ?_ hm
  · exact List.Sorted.le_of_lt (List.pairwise_lt_range' _ _)
  · exact List.mem_range'_1.mpr ⟨h4, by omega⟩

/-- The source's upward-scanning loop agrees with the specification's
"longest suffix of `previous` equal to a prefix of `current`" whenever a
removal happens, and both sides agree on when that is. -/
theorem remove_text_overlap_eq_spec (previous current : List Char) :
    remove_text_overlap previous current = remove_text_overlap_spec previous current := by
  simp only [remove_text_overlap, remove_text_overlap_spec]
  set p := rustTrim previous with hp
  set c := rustTrimStart current with hc
  set g := Nat.findGreatest (fun l => overlapMatches p c l = true)
      (min c.length p.length) with hg
  by_cases hemp : (p.isEmpty || c.isEmpty) = true
  · -- one side empty: `min` of the lengths is 0, so no overlap of length ≥ 4
    have hM : min c.length p.length = 0 := by
      rcases Bool.or_eq_true_iff.mp hemp with h | h
      · simp [List.isEmpty_iff_length_eq_zero.mp h]
      · simp [List.isEmpty_iff_length_eq_zero.mp h]
    have hgle : g ≤ 0 := hM ▸ Nat.findGreatest_le (P := fun l => overlapMatches p c l = true) _
    have hg4 : ¬ 4 ≤ g := by omega
    simp [hemp, hg4]
  · have hiff : (4 ≤ bestOverlap p c → bestOverlap p c = g) ∧
        (4 ≤ bestOverlap p c ↔ 4 ≤ g) := by
      obtain ⟨hgle, hgspec, hgmax⟩ := Nat.findGreatest_eq_iff.mp hg.symm
      constructor
      · intro h4
        rcases bestOverlap_eq_zero_or p c with h0 | ⟨hb4, hble, hbm⟩
        · omega
        · have hbg : bestOverlap p c ≤ g := Nat.le_findGreatest hble hbm
          have hgb : g ≤ bestOverlap p c := by
            have hgm : overlapMatches p c g = true := hgspec (by omega)
            exact le_bestOverlap p c g (by omega) hgle hgm
          omega
      · constructor
        · intro h4
          rcases bestOverlap_eq_zero_or p c with h0 | ⟨hb4, hble, hbm⟩
          · omega
          · have hbg : bestOverlap p c ≤ g := Nat.le_findGreatest hble hbm
            omega
        · intro h4
          have hgm : overlapMatches p c g = true := hgspec (by omega)
          have := le_bestOverlap p c g h4 hgle hgm
          omega
    by_cases h4 : 4 ≤ bestOverlap p c
    · have h4g : 4 ≤ g := hiff.2.mp h4
      have heq : bestOverlap p c = g := hiff.1 h4
      simp [hemp, h4, h4g, heq]
    · have h4g : ¬ 4 ≤ g := fun h => h4 (hiff.2.mpr h)
      simp [hemp, h4, h4g]

/-- The length removed by `remove_text_overlap` is `0` or lies in
`[4, min (length previous) (length current)]` (lengths after the trims). -/
theorem removedPrefixLen_bound (previous current : List Char) :
    removedPrefixLen previous current = 0 ∨
      (4 ≤ removedPrefixLen previous current ∧
        removedPrefixLen previous current ≤
          min (rustTrim previous).length (rustTrimStart current).length) := by
  simp only [removedPrefixLen]
  set p := rustTrim previous
  set c := rustTrimStart current
  by_cases hemp : (p.isEmpty || c.isEmpty) = true
  · left; simp [hemp]
  · by_cases h4 : 4 ≤ bestOverlap p c
    · right
      rcases bestOverlap_eq_zero_or p c with h0 | ⟨hb4, hble, _⟩
      · omega
      · constructor
        · simp [hemp, h4]
        · simp only [hemp, Bool.false_eq_true, if_false, if_pos h4]
          omega
    · left; simp [hemp, h4]

/-- **C2**: `remove_text_overlap` is the reference function: it trims
`previous`, left-trims `current`, finds the longest suffix of `previous`
equal to a prefix of `current` in code points and, when that longest match
has length ≥ 4, drops it from `current` and left-trims, otherwise returns
`current` unchanged; the removed prefix length is 0 or lies in
`[4, min (len previous) (len current)]`, and (scenario S1) it can exceed
half of `current`'s length. -/
theorem remove_text_overlap_is_reference (previous current : List Char) :
    remove_text_overlap previous current = remove_text_overlap_spec previous current ∧
    (removedPrefixLen previous current = 0 ∨
      (4 ≤ removedPrefixLen previous current ∧
        removedPrefixLen previous current ≤
          min (rustTrim previous).length (rustTrimStart current).length)) ∧
    (rustTrimStart s1Current).length < 2 * removedPrefixLen s1Previous s1Current ∧
    remove_text_overlap s1Previous s1Current = "plus hiring plan".toList := by
  refine ⟨remove_text_overlap_eq_spec previous current,
    removedPrefixLen_bound previous current, by decide, by decide⟩

/-- Every branch of the worker loop counts the consumed chunk exactly once. -/
theorem processChunk_completed (τ : ℚ) (w : WorkerState) (c : AudioChunk)
    (r : EngineResponse) :
    (processChunk τ w c r).chunks_completed = w.chunks_completed + 1 := by
  cases r with
  | unloaded => rfl
  | failed e => cases e <;> rfl
  | transcribed text conf isPartial =>
    simp only [processChunk]
    split
    · split <;> rfl
    · rfl

/-- Folding the worker step over any dispatched list adds its length to the
completion counter. -/
theorem foldl_processChunk_completed (τ : ℚ) :
    ∀ (inputs : List (AudioChunk × EngineResponse)) (w : WorkerState),
      (inputs.foldl (fun w p => processChunk τ w p.1 p.2) w).chunks_completed =
        w.chunks_completed + inputs.length := by
  intro inputs
  induction inputs with
  | nil => intro w; rfl
  | cons p ps ih =>
    intro w
    rw [List.foldl_cons, ih, processChunk_completed]
    simp [Nat.add_comm, Nat.add_assoc, Nat.add_left_comm]

/-- **C1**: zero chunk loss.  For every dispatched sequence of chunks
followed by input-end, the drained state satisfies
`chunks_completed = chunks_queued`, because every branch of the per-chunk
processing (success, short-audio skip, model-unloaded skip, threshold
failure, dedup-empty skip, engine error) increments `chunks_completed`
exactly once. -/
theorem zero_chunk_loss (τ : ℚ) (inputs : List (AudioChunk × EngineResponse)) :
    (runPool τ inputs).chunks_completed = chunksQueued inputs ∧
    ∀ (w : WorkerState) (c : AudioChunk) (r : EngineResponse),
      (processChunk τ w c r).chunks_completed = w.chunks_completed + 1 := by
  constructor
  · have h := foldl_processChunk_completed τ inputs initialWorkerState
    simpa [runPool, chunksQueued, initialWorkerState] using h
  · intro w c r
    exact processChunk_completed τ w c r

/-- **C3**: refinement semantics.  With a previous segment end recorded, a
non-partial segment is a refinement iff it starts more than 2 s before that
end and lasts more than 4 s; refinements skip dedup (the text passes through
unchanged) and the stored end time becomes the max of the old and new end
times. -/
theorem refinement_semantics (lastText text : List Char) (lastEnd start dur : ℚ) :
    (isRefinementOf (some lastEnd) start dur = true ↔
      (start < lastEnd - 2 ∧ 4 < dur)) ∧
    (isRefinementOf (some lastEnd) start dur = true →
      (dedupAndUpdate lastText (some lastEnd) text start dur false).deduped = text ∧
      (dedupAndUpdate lastText (some lastEnd) text start dur false).last_audio_end_time =
        some (max lastEnd (start + dur))) := by
  constructor
  · simp [isRefinementOf]
  · intro h
    constructor
    · simp [dedupAndUpdate, shouldDedupOf, h]
    · simp [dedupAndUpdate, shouldDedupOf, h, max_comm]

/-- Witness for C3 at scenario S5: the chunk is classified as a refinement,
dedup is skipped, the update is emitted with `audio_end_time = 11` and
`is_refinement = true`, and the stored end time becomes
`max 10 11 = 11`. -/
theorem refinement_semantics_s5 :
    ((6 : ℚ) < 10 - 2 ∧ (4 : ℚ) < 5) ∧
    (dedupAndUpdate s5State.last_text (some 10)
        ("quarterly goals".toList) 6 5 false).deduped = "quarterly goals".toList ∧
    (dedupAndUpdate s5State.last_text (some 10)
        ("quarterly goals".toList) 6 5 false).last_audio_end_time =
      some (max 10 (6 + 5)) ∧
    (processChunk 0 s5State s5Chunk
        (.transcribed ("quarterly goals".toList) none false)).emitted =
      [{ text := "quarterly goals".toList
         sequence_id := 0
         chunk_start_time := 6
         is_partial := false
         confidence := 17/20
         audio_start_time := 6
         audio_end_time := 11
         duration := 5
         is_refinement := true }] ∧
    (processChunk 0 s5State s5Chunk
        (.transcribed ("quarterly goals".toList) none false)).last_audio_end_time =
      some 11 := by
  have hrefb : isRefinementOf (some 10) 6 5 = true := by
    simp only [isRefinementOf, Bool.and_eq_true, decide_eq_true_eq]
    norm_num
  have htrim : (rustTrim ("quarterly goals".toList)).isEmpty = false := by decide
  have hsup : (11 : ℚ) ⊔ 10 = 11 := max_eq_left (by norm_num)
  have h := refinement_semantics s5State.last_text ("quarterly goals".toList) 10 6 5
  refine ⟨h.1.mp hrefb, (h.2 hrefb).1, (h.2 hrefb).2, ?_, ?_⟩ <;>
    norm_num only [processChunk, s5State, s5Chunk, initialWorkerState, chunkDuration,
      dedupAndUpdate, shouldDedupOf, htrim, hrefb, Option.getD, hsup,
      Bool.not_true, Bool.false_and, Bool.not_false, Bool.true_and, Bool.and_true,
      Bool.false_eq_true, List.nil_append, if_true, if_false]

/-- Every worker step preserves the sequence-id invariant: an emitted update
takes the pre-increment counter value, which is strictly above every
previously emitted id; skipped chunks leave the emitted list unchanged while
the counter never decreases. -/
theorem processChunk_seqInvariant (τ : ℚ) (w : WorkerState) (c : AudioChunk)
    (r : EngineResponse) (h : SeqInvariant w) :
    SeqInvariant (processChunk τ w c r) := by
  obtain ⟨hpw, hlt⟩ := h
  cases r with
  | unloaded => exact ⟨hpw, hlt⟩
  | failed e => cases e <;> exact ⟨hpw, hlt⟩
  | transcribed text conf isPartial =>
    simp only [processChunk]
    split
    · split
      · -- dedup-empty skip: emitted unchanged, counter grew by one
        refine ⟨hpw, ?_⟩
        intro u hu
        exact Nat.lt_succ_of_lt (hlt u hu)
      · -- emission of one update carrying the pre-increment counter
        constructor
        · refine List.pairwise_append.mpr ⟨hpw, List.pairwise_singleton _ _, ?_⟩
          intro a ha b hb
          rw [List.mem_singleton] at hb
          subst hb
          exact hlt a ha
        · intro u hu
          rcases List.mem_append.mp hu with h1 | h1
          · exact Nat.lt_succ_of_lt (hlt u h1)
          · rw [List.mem_singleton] at h1
            subst h1
            exact Nat.lt_succ_self _
    · exact ⟨hpw, hlt⟩

/-- The invariant holds of every reachable pool state. -/
theorem runPool_seqInvariant (τ : ℚ) (inputs : List (AudioChunk × EngineResponse)) :
    SeqInvariant (runPool τ inputs) := by
  have hstep : ∀ (l : List (AudioChunk × EngineResponse)) (w : WorkerState),
      SeqInvariant w →
      SeqInvariant (l.foldl (fun w p => processChunk τ w p.1 p.2) w) := by
    intro l
    induction l with
    | nil => intro w h; exact h
    | cons p ps ih =>
      intro w h
      exact ih _ (processChunk_seqInvariant τ w p.1 p.2 h)
  refine hstep inputs initialWorkerState ⟨List.Pairwise.nil, ?_⟩
  intro u hu
  exact absurd hu (List.not_mem_nil u)

/-- **C10** (implicit): emitted finals carry strictly increasing sequence
ids, but not necessarily consecutive ones — the counter is incremented
before the dedup-empty check, so a fully-overlapped non-partial segment
consumes an id that is never emitted, leaving a gap (here `[0, 2]`). -/
theorem emitted_sequence_ids_increase_with_gaps :
    (∀ (τ : ℚ) (inputs : List (AudioChunk × EngineResponse)),
      (runPool τ inputs).emitted.Pairwise
        (fun a b => a.sequence_id < b.sequence_id)) ∧
    (runPool 0 gapHistory).emitted.map (fun u => u.sequence_id) = [0, 2] := by
  constructor
  · intro τ inputs
    exact (runPool_seqInvariant τ inputs).1
  · have htrim1 :
        (rustTrim ("we should align on launch timeline".toList)).isEmpty = false := by
      decide
    have htrim2 : (rustTrim ("launch timeline".toList)).isEmpty = false := by decide
    have htrim3 :
        (rustTrim ("design review starts tomorrow".toList)).isEmpty = false := by
      decide
    have hrm1 : remove_text_overlap ("we should align on launch timeline".toList)
        ("launch timeline".toList) = [] := by decide
    have hrm2 : remove_text_overlap ("launch timeline".toList)
        ("design review starts tomorrow".toList) =
        "design review starts tomorrow".toList := by decide
    have htrimnil : (rustTrim ([] : List Char)).isEmpty = true := by decide
    have href0 : isRefinementOf none 0 1 = false := rfl
    have href1 : isRefinementOf (some 1) 1 1 = false := by
      simp only [isRefinementOf]
      norm_num
    have href2 : isRefinementOf (some 2) 2 1 = false := by
      simp only [isRefinementOf]
      norm_num
    have hsd0 : shouldDedupOf false none 0 = false := rfl
    have hsd1 : shouldDedupOf false (some 1) 1 = true := by
      simp only [shouldDedupOf]
      norm_num
    have hsd2 : shouldDedupOf false (some 2) 2 = true := by
      simp only [shouldDedupOf]
      norm_num
    norm_num only [runPool, gapHistory, List.foldl_cons, List.foldl_nil, processChunk,
      initialWorkerState, chunkDuration, dedupAndUpdate,
      htrim1, htrim2, htrim3, hrm1, hrm2, htrimnil, href0, href1, href2,
      hsd0, hsd1, hsd2, Option.getD,
      Bool.not_true, Bool.false_and, Bool.not_false, Bool.true_and, Bool.and_true,
      Bool.false_eq_true, List.nil_append, if_true, if_false,
      List.map_cons, List.map_nil, List.cons_append]

/-- Counterexample to C4 ("both post-processing transformations are
idempotent"): for `previous = "abcd"`, `current = "abcdabcd"` the first
application of `remove_text_overlap` drops the 4-character overlap leaving
`"abcd"`, and a second application drops that entirely, so
`remove_text_overlap previous (remove_text_overlap previous current)`
differs from `remove_text_overlap previous current`. -/
theorem dedup_not_idempotent_cex :
    remove_text_overlap ("abcd".toList)
        (remove_text_overlap ("abcd".toList) ("abcdabcd".toList)) ≠
      remove_text_overlap ("abcd".toList) ("abcdabcd".toList) := by decide

/-- **C4** (amended): both transformations are total, but neither is
idempotent.  `remove_text_overlap "abcd"` maps `"abcdabcd"` to `"abcd"` and
then to `""`; `clean_qwen_asr_output` maps
`"language Englishlanguage EnglishHi"` to `"language EnglishHi"` (the second
`language English` is not at a line start in the original string, so
`replace_all` does not touch it) and a second cleaning yields `"Hi"`. -/
theorem clean_and_dedup_not_idempotent :
    remove_text_overlap ("abcd".toList) ("abcdabcd".toList) = "abcd".toList ∧
    remove_text_overlap ("abcd".toList) ("abcd".toList) = [] ∧
    clean_qwen_asr_output ("language Englishlanguage EnglishHi".toList) =
      "language EnglishHi".toList ∧
    clean_qwen_asr_output ("language EnglishHi".toList) = "Hi".toList ∧
    clean_qwen_asr_output (clean_qwen_asr_output
        ("language Englishlanguage EnglishHi".toList)) ≠
      clean_qwen_asr_output ("language Englishlanguage EnglishHi".toList) :=
  ⟨by decide, by decide, by decide, by decide, by decide⟩

/-- **C5**: language-prefix stripping on the S4 inputs: the tag is stripped
at the line start of the first input and after the sentence terminator of
the second (the terminator itself is preserved); a name outside the closed
allow-list is not stripped. -/
theorem clean_qwen_asr_output_s4 :
    clean_qwen_asr_output ("language EnglishWhat's your name?".toList) =
      "What's your name?".toList ∧
    clean_qwen_asr_output ("Hi.language Chinese吃吃吃。".toList) =
      "Hi.吃吃吃。".toList ∧
    clean_qwen_asr_output ("language KlingonHello".toList) =
      "language KlingonHello".toList :=
  ⟨by decide, by decide, by decide⟩

/-- **C6**: with a non-empty, non-whitespace API key, every audio vector of
fewer than 1600 samples is rejected as
`AudioTooShort{samples = len, minimum = 1600}` and no HTTP request is
sent. -/
theorem openai_short_audio_rejected (api_key : List Char) (audio : List ℚ)
    (language : Option (List Char))
    (hkey : (rustTrim api_key).isEmpty = false) (hlen : audio.length < 1600) :
    openai_transcribe api_key audio language =
      .failed (.audioTooShort audio.length 1600) ∧
    ∀ (n : Nat) (lang : Option (List Char)),
      openai_transcribe api_key audio language ≠ .httpRequest n lang := by
  constructor
  · simp [openai_transcribe, hkey, hlen]
  · intro n lang
    simp [openai_transcribe, hkey, hlen]

/-- Witness for C6: 800 samples with the key `"sk-test"` yield
`AudioTooShort{samples: 800, minimum: 1600}`. -/
theorem openai_short_audio_rejected_800 :
    openai_transcribe ("sk-test".toList) (List.replicate 800 0) none =
      .failed (.audioTooShort 800 1600) := by
  have h := openai_short_audio_rejected ("sk-test".toList) (List.replicate 800 0)
    none (by decide) (by norm_num)
  have h2 := h.1
  rw [List.length_replicate] at h2
  exact h2

/-- **C7**: GGUF validation totality: the file is accepted iff it is at
least 1024 bytes long and starts with the magic bytes; in every other case
an error is returned. -/
theorem validate_gguf_file_iff (file : List (Fin 256)) :
    (validate_gguf_file file = .ok () ↔
      (1024 ≤ file.length ∧ file.take 4 = ggufMagicBytes)) ∧
    (¬ (1024 ≤ file.length ∧ file.take 4 = ggufMagicBytes) →
      ∃ msg, validate_gguf_file file = .error msg) := by
  have hmain : validate_gguf_file file = .ok () ↔
      (1024 ≤ file.length ∧ file.take 4 = ggufMagicBytes) := by
    unfold validate_gguf_file
    by_cases hlen : file.length < 1024
    · rw [if_pos hlen]
      constructor
      · intro h
        exact absurd h (by simp)
      · rintro ⟨h1, _⟩
        omega
    · rw [if_neg hlen]
      rcases file with _ | ⟨b0, _ | ⟨b1, _ | ⟨b2, _ | ⟨b3, rest⟩⟩⟩⟩
      · simp at hlen
      · simp [List.length] at hlen
      · simp [List.length] at hlen
      · simp [List.length] at hlen
      · have hb0 := b0.isLt
        have hb1 := b1.isLt
        have hb2 := b2.isLt
        have hb3 := b3.isLt
        dsimp only
        have htake4 : List.take 4 (b0 :: b1 :: b2 :: b3 :: rest) = [b0, b1, b2, b3] := rfl
        by_cases hm : u32FromLeBytes b0 b1 b2 b3 = 0x46554747
        · rw [if_pos hm]
          unfold u32FromLeBytes at hm
          constructor
          · intro _
            refine ⟨by omega, ?_⟩
            have h0 : b0.val = 0x47 := by omega
            have h1 : b1.val = 0x47 := by omega
            have h2 : b2.val = 0x55 := by omega
            have h3 : b3.val = 0x46 := by omega
            rw [htake4]
            simp only [ggufMagicBytes, List.cons.injEq, and_true]
            exact ⟨Fin.ext h0, Fin.ext h1, Fin.ext h2, Fin.ext h3⟩
          · intro _
            rfl
        · rw [if_neg hm]
          constructor
          · intro h
            exact absurd h (by simp)
          · rintro ⟨-, htake⟩
            rw [htake4] at htake
            simp only [ggufMagicBytes, List.cons.injEq, and_true] at htake
            obtain ⟨e0, e1, e2, e3⟩ := htake
            have hval : u32FromLeBytes b0 b1 b2 b3 = 0x46554747 := by
              unfold u32FromLeBytes
              rw [e0, e1, e2, e3]
              decide
            exact absurd hval hm
  refine ⟨hmain, ?_⟩
  intro hnot
  cases hval : validate_gguf_file file with
  | ok u =>
    cases u
    exact absurd (hmain.mp hval) hnot
  | error m => exact ⟨m, rfl⟩

/-- `percentFloor` is monotone in the downloaded byte count. -/
theorem percentFloor_mono (cap total d d' : Nat) (h : d ≤ d') :
    percentFloor cap d total ≤ percentFloor cap d' total := by
  unfold percentFloor
  split
  · exact min_le_min le_rfl (Nat.div_le_div_right (Nat.mul_le_mul_right _ h))
  · exact le_rfl

/-- Every reported percent is at most the final `percentFloor 100 total
total` (which is 100 for a positive total, 0 otherwise). -/
theorem percentFloor_le_final (total d : Nat) :
    percentFloor 100 d total ≤ percentFloor 100 total total := by
  unfold percentFloor
  split
  case isTrue h =>
    have h100 : total * 100 / total = 100 := by
      rw [Nat.mul_comm, Nat.mul_div_cancel _ h]
    rw [h100]
    simp
  case isFalse => exact le_rfl

/-- The percents emitted by the download loop from a byte count `d` are all
at least `percentFloor 100 d total`, and they are emitted in nondecreasing
order. -/
theorem dlLoop_emitted_bounds (total : Nat) (flushOk : Bool) :
    ∀ (events : List DlStreamEvent) (d lr : Nat) (status : ModelStatus),
      (∀ q ∈ (dlLoop total flushOk events d lr status).2.2,
          percentFloor 100 d total ≤ q) ∧
      (dlLoop total flushOk events d lr status).2.2.Pairwise (· ≤ ·) := by
  intro events
  induction events with
  | nil =>
    intro d lr status
    unfold dlLoop
    split
    · constructor
      · intro q hq
        rw [List.mem_singleton] at hq
        subst hq
        exact percentFloor_le_final total d
      · exact List.pairwise_singleton _ _
    · constructor
      · intro q hq
        exact absurd hq (List.not_mem_nil q)
      · exact List.Pairwise.nil
  | cons e rest ih =>
    intro d lr status
    cases e with
    | cancelObserved =>
      refine ⟨?_, ?_⟩
      · intro q hq
        simp [dlLoop] at hq
      · simp [dlLoop]
    | timeout =>
      refine ⟨?_, ?_⟩
      · intro q hq
        simp [dlLoop] at hq
      · simp [dlLoop]
    | readErr =>
      refine ⟨?_, ?_⟩
      · intro q hq
        simp [dlLoop] at hq
      · simp [dlLoop]
    | chunk bytes writeOk timeThresh =>
      simp only [dlLoop]
      split
      · -- write succeeded
        split
        · -- emission
          obtain ⟨ihlb, ihpw⟩ :=
            ih (d + bytes) (percentFloor 99 (d + bytes) total)
              (.downloading (percentFloor 99 (d + bytes) total))
          constructor
          · intro q hq
            rw [List.mem_cons] at hq
            rcases hq with rfl | hq
            · exact percentFloor_mono 100 total d (d + bytes) (Nat.le_add_right d bytes)
            · exact le_trans
                (percentFloor_mono 100 total d (d + bytes) (Nat.le_add_right d bytes))
                (ihlb q hq)
          · exact List.pairwise_cons.mpr ⟨fun q hq => ihlb q hq, ihpw⟩
        · -- no emission this chunk
          obtain ⟨ihlb, ihpw⟩ := ih (d + bytes) lr status
          constructor
          · intro q hq
            exact le_trans
              (percentFloor_mono 100 total d (d + bytes) (Nat.le_add_right d bytes))
              (ihlb q hq)
          · exact ihpw
      · -- write failed
        constructor
        · intro q hq
          exact absurd hq (List.not_mem_nil q)
        · exact List.Pairwise.nil

/-- When the loop returns success, its last emitted percent is the final
report `percentFloor 100 total total`. -/
theorem dlLoop_ok_last (total : Nat) (flushOk : Bool) :
    ∀ (events : List DlStreamEvent) (d lr : Nat) (status : ModelStatus),
      (dlLoop total flushOk events d lr status).1 = .ok () →
      (dlLoop total flushOk events d lr status).2.2.getLast? =
        some (percentFloor 100 total total) := by
  intro events
  induction events with
  | nil =>
    intro d lr status hok
    unfold dlLoop at hok ⊢
    split at hok
    · simp_all
    · simp_all
  | cons e rest ih =>
    intro d lr status hok
    cases e with
    | cancelObserved => simp [dlLoop] at hok
    | timeout => simp [dlLoop] at hok
    | readErr => simp [dlLoop] at hok
    | chunk bytes writeOk timeThresh =>
      by_cases hw : writeOk = true
      · by_cases hemit :
            (decide (lr < percentFloor 99 (d + bytes) total) || timeThresh) = true
        · simp only [dlLoop, hw, hemit, if_true] at hok ⊢
          have hlast := ih (d + bytes) (percentFloor 99 (d + bytes) total)
            (.downloading (percentFloor 99 (d + bytes) total)) hok
          rcases hmatch : (dlLoop total flushOk rest (d + bytes)
              (percentFloor 99 (d + bytes) total)
              (.downloading (percentFloor 99 (d + bytes) total))).2.2 with _ | ⟨q, ems⟩
          · rw [hmatch] at hlast
            simp at hlast
          · rw [hmatch] at hlast
            rw [List.getLast?_cons_cons]
            exact hlast
        · simp only [dlLoop, hw, hemit, if_true, if_false] at hok ⊢
          exact ih (d + bytes) lr status hok
      · simp [dlLoop, hw] at hok

/-- How the loop leaves the model status on each outcome, starting from a
`Downloading` status: only the timeout and stream-read-error exits revert
to `Missing`; cancellation, write failure and flush failure leave a
`Downloading` status; success sets `Available`; and the loop never produces
the pre-loop errors. -/
theorem dlLoop_error_status (total : Nat) (flushOk : Bool) :
    ∀ (events : List DlStreamEvent) (d lr p : Nat),
      ((dlLoop total flushOk events d lr (.downloading p)).1 = .error .timeout →
        (dlLoop total flushOk events d lr (.downloading p)).2.1 = .missing) ∧
      ((dlLoop total flushOk events d lr (.downloading p)).1 = .error .readFailed →
        (dlLoop total flushOk events d lr (.downloading p)).2.1 = .missing) ∧
      (((dlLoop total flushOk events d lr (.downloading p)).1 = .error .cancelled ∨
        (dlLoop total flushOk events d lr (.downloading p)).1 = .error .writeFailed ∨
        (dlLoop total flushOk events d lr (.downloading p)).1 = .error .flushFailed) →
        ∃ q, (dlLoop total flushOk events d lr (.downloading p)).2.1 =
          .downloading q) ∧
      ((dlLoop total flushOk events d lr (.downloading p)).1 = .ok () →
        (dlLoop total flushOk events d lr (.downloading p)).2.1 = .available) ∧
      ((dlLoop total flushOk events d lr (.downloading p)).1 = .error .badStatus →
        False) ∧
      ((dlLoop total flushOk events d lr (.downloading p)).1 = .error .sendFailed →
        False) := by
  intro events
  induction events with
  | nil =>
    intro d lr p
    unfold dlLoop
    by_cases hf : flushOk = true
    · simp [hf]
    · simp [hf]
  | cons e rest ih =>
    intro d lr p
    cases e with
    | cancelObserved => simp [dlLoop]
    | timeout => simp [dlLoop]
    | readErr => simp [dlLoop]
    | chunk bytes writeOk timeThresh =>
      by_cases hw : writeOk = true
      · by_cases hemit :
            (decide (lr < percentFloor 99 (d + bytes) total) || timeThresh) = true
        · simp only [dlLoop, hw, hemit, if_true]
          exact ih (d + bytes) (percentFloor 99 (d + bytes) total)
            (percentFloor 99 (d + bytes) total)
        · simp only [dlLoop, hw, hemit, if_true, if_false]
          exact ih (d + bytes) lr p
      · simp [dlLoop, hw]

/-- Counterexample to C8 ("on successful completion the final reported
percent is exactly 100"): a 200 response carrying `Content-Length: 0` makes
`total_size = 0`, so the run completes successfully while every delivered
percent — including the final report — is 0; and the early-exit path for an
already-complete valid partial file (99 of an expected 100 bytes here)
returns success without delivering any progress at all. -/
theorem download_final_percent_cex :
    (download_model_detailed .missing false 100 0 false (.okStatus (some 0))
        [] true).result = .ok () ∧
    (download_model_detailed .missing false 100 0 false (.okStatus (some 0))
        [] true).emitted = [0] ∧
    (download_model_detailed .missing false 100 0 false (.okStatus (some 0))
        [] true).emitted.getLast? ≠ some 100 ∧
    (download_model_detailed .missing false 100 99 true (.okStatus none)
        [] true).result = .ok () ∧
    (download_model_detailed .missing false 100 99 true (.okStatus none)
        [] true).emitted = [] :=
  ⟨rfl, rfl, by decide, rfl, rfl⟩

/-- **C8** (amended): within a single run the delivered percents never
decrease (including reports triggered only by the 500 ms threshold and
resumed downloads starting from a partial file); when the streaming loop
completes successfully *and the reported total size is positive*, the final
delivered percent is exactly 100; the already-downloaded early-exit path
returns success without delivering any progress (and a zero reported total
makes every delivered percent 0). -/
theorem download_progress_monotone_and_final :
    (∀ (st0 : ModelStatus) (alreadyActive : Bool) (expected existing : Nat)
        (fileValidates : Bool) (resp : DlResponse) (events : List DlStreamEvent)
        (flushOk : Bool),
      (download_model_detailed st0 alreadyActive expected existing fileValidates
          resp events flushOk).emitted.Pairwise (· ≤ ·)) ∧
    (∀ (total : Nat) (flushOk : Bool) (events : List DlStreamEvent)
        (d lr : Nat) (status : ModelStatus), 0 < total →
      (dlLoop total flushOk events d lr status).1 = .ok () →
      (dlLoop total flushOk events d lr status).2.2.getLast? = some 100) ∧
    (∀ (st0 : ModelStatus) (expected existing : Nat) (resp : DlResponse)
        (events : List DlStreamEvent) (flushOk : Bool),
      0 < existing → expected * 99 / 100 ≤ existing →
      (download_model_detailed st0 false expected existing true resp events
          flushOk).result = .ok () ∧
      (download_model_detailed st0 false expected existing true resp events
          flushOk).emitted = []) := by
  refine ⟨?_, ?_, ?_⟩
  · intro st0 alreadyActive expected existing fileValidates resp events flushOk
    unfold download_model_detailed
    split
    · exact List.Pairwise.nil
    · split
      · exact List.Pairwise.nil
      · match resp with
        | .sendErr => exact List.Pairwise.nil
        | .badStatus => exact List.Pairwise.nil
        | .partialContent cl =>
          exact (dlLoop_emitted_bounds (existing + cl.getD 0) flushOk events
            existing 0 (.downloading 0)).2
        | .okStatus cl =>
          exact (dlLoop_emitted_bounds (cl.getD expected) flushOk events
            0 0 (.downloading 0)).2
  · intro total flushOk events d lr status htotal hok
    have hlast := dlLoop_ok_last total flushOk events d lr status hok
    have hfin : percentFloor 100 total total = 100 := by
      unfold percentFloor
      rw [if_pos htotal]
      rw [Nat.mul_comm, Nat.mul_div_cancel _ htotal]
      simp
    rw [hfin] at hlast
    exact hlast
  · intro st0 expected existing resp events flushOk hex hsize
    constructor
    · unfold download_model_detailed
      rw [if_neg (by simp), if_pos ⟨hex, hsize, rfl⟩]
    · unfold download_model_detailed
      rw [if_neg (by simp), if_pos ⟨hex, hsize, rfl⟩]

/-- Witness for C8: a one-chunk download of 1 byte towards a total of 1
reports `[100, 100]` (nondecreasing, ending at exactly 100), and the
early-exit path at 99 of 100 bytes returns success with no reports. -/
theorem download_progress_monotone_and_final_witness :
    (download_model_detailed .missing false 100 0 false (.okStatus (some 1))
        [.chunk 1 true false] true).emitted.Pairwise (· ≤ ·) ∧
    (dlLoop 1 true [.chunk 1 true false] 0 0 (.downloading 0)).2.2.getLast? =
      some 100 ∧
    (download_model_detailed .missing false 100 99 true (.okStatus none)
        [] true).result = .ok () ∧
    (download_model_detailed .missing false 100 99 true (.okStatus none)
        [] true).emitted = [] := by
  refine ⟨?_, ?_, ?_, ?_⟩
  · exact download_progress_monotone_and_final.1 .missing false 100 0 false
      (.okStatus (some 1)) [.chunk 1 true false] true
  · exact download_progress_monotone_and_final.2.1 1 true [.chunk 1 true false]
      0 0 (.downloading 0) (by decide) rfl
  · exact (download_progress_monotone_and_final.2.2 .missing 100 99
      (.okStatus none) [] true (by decide) (by decide)).1
  · exact (download_progress_monotone_and_final.2.2 .missing 100 99
      (.okStatus none) [] true (by decide) (by decide)).2

/-- Counterexample to C9 ("whenever `download_model_detailed` returns an
error the status is reverted to Missing"): on a non-success HTTP status the
source removes the model from `active_downloads` and returns, leaving the
status at `Downloading{0}`, not `Missing`. -/
theorem download_error_not_reverted_cex :
    (download_model_detailed .missing false 1350 0 false .badStatus []
        true).result = .error .badStatus ∧
    (download_model_detailed .missing false 1350 0 false .badStatus []
        true).status ≠ .missing ∧
    (download_model_detailed .missing false 1350 0 false .badStatus []
        true).status = .downloading 0 :=
  ⟨rfl, by decide, rfl⟩

/-- **C9** (amended): every modelled error return of
`download_model_detailed` (non-success HTTP status, send failure, stream
read error, 30 s inter-chunk timeout, chunk-write or flush I/O error,
cancellation observed in the loop) removes the model from
`active_downloads` before returning; but the status is reverted to
`Missing` only on the timeout and stream-read-error paths — the
bad-status/send paths leave `Downloading{0}`, and the cancellation, write-
and flush-failure paths leave the last `Downloading` status (on
cancellation it is `cancel_download`, running separately, that sets
`Missing`). -/
theorem download_error_cleanup (st0 : ModelStatus) (expected existing : Nat)
    (fileValidates : Bool) (resp : DlResponse) (events : List DlStreamEvent)
    (flushOk : Bool) :
    (∀ e, (download_model_detailed st0 false expected existing fileValidates
        resp events flushOk).result = .error e →
      (download_model_detailed st0 false expected existing fileValidates
        resp events flushOk).active = false) ∧
    ((download_model_detailed st0 false expected existing fileValidates
        resp events flushOk).result = .error .timeout ∨
      (download_model_detailed st0 false expected existing fileValidates
        resp events flushOk).result = .error .readFailed →
      (download_model_detailed st0 false expected existing fileValidates
        resp events flushOk).status = .missing) ∧
    ((download_model_detailed st0 false expected existing fileValidates
        resp events flushOk).result = .error .badStatus ∨
      (download_model_detailed st0 false expected existing fileValidates
        resp events flushOk).result = .error .sendFailed →
      (download_model_detailed st0 false expected existing fileValidates
        resp events flushOk).status = .downloading 0) ∧
    ((download_model_detailed st0 false expected existing fileValidates
        resp events flushOk).result = .error .cancelled ∨
      (download_model_detailed st0 false expected existing fileValidates
        resp events flushOk).result = .error .writeFailed ∨
      (download_model_detailed st0 false expected existing fileValidates
        resp events flushOk).result = .error .flushFailed →
      ∃ q, (download_model_detailed st0 false expected existing fileValidates
        resp events flushOk).status = .downloading q) := by
  unfold download_model_detailed
  rw [if_neg (by simp)]
  split
  · -- early-exit success: no error is returned
    refine ⟨?_, ?_, ?_, ?_⟩
    · intro e h
      exact absurd h (by simp)
    · rintro (h | h) <;> exact absurd h (by simp)
    · rintro (h | h) <;> exact absurd h (by simp)
    · rintro (h | h | h) <;> exact absurd h (by simp)
  · match resp with
    | .sendErr =>
      refine ⟨fun e _ => rfl, ?_, fun _ => rfl, ?_⟩
      · rintro (h | h) <;> exact absurd h (by simp)
      · rintro (h | h | h) <;> exact absurd h (by simp)
    | .badStatus =>
      refine ⟨fun e _ => rfl, ?_, fun _ => rfl, ?_⟩
      · rintro (h | h) <;> exact absurd h (by simp)
      · rintro (h | h | h) <;> exact absurd h (by simp)
    | .partialContent cl =>
      dsimp only
      have h := dlLoop_error_status (existing + cl.getD 0) flushOk events
        existing 0 0
      exact ⟨fun e _ => rfl, fun he => he.elim h.1 h.2.1,
        fun he => absurd he (by
          rintro (hb | hb)
          · exact h.2.2.2.2.1 hb
          · exact h.2.2.2.2.2 hb),
        h.2.2.1⟩
    | .okStatus cl =>
      dsimp only
      have h := dlLoop_error_status (cl.getD expected) flushOk events 0 0 0
      exact ⟨fun e _ => rfl, fun he => he.elim h.1 h.2.1,
        fun he => absurd he (by
          rintro (hb | hb)
          · exact h.2.2.2.2.1 hb
          · exact h.2.2.2.2.2 hb),
        h.2.2.1⟩

/-- Witness for C9 at the bad-status path: the name is removed from
`active_downloads` and the status stays `Downloading{0}`. -/
theorem download_error_cleanup_witness :
    (download_model_detailed .missing false 1350 0 false .badStatus []
        true).active = false ∧
    (download_model_detailed .missing false 1350 0 false .badStatus []
        true).status = .downloading 0 :=
  ⟨(download_error_cleanup .missing 1350 0 false .badStatus [] true).1
      .badStatus rfl,
    (download_error_cleanup .missing 1350 0 false .badStatus [] true).2.2.1
      (Or.inl rfl)⟩

set_option maxRecDepth 100000 in
/-- Witness for C7: a 1024-byte file starting with the magic is accepted;
the empty file is rejected with an error. -/
theorem validate_gguf_file_iff_witness :
    validate_gguf_file ggufTestFile = .ok () ∧
    ∃ msg, validate_gguf_file [] = .error msg :=
  ⟨(validate_gguf_file_iff ggufTestFile).1.mpr (by decide),
    (validate_gguf_file_iff []).2 (by decide)⟩
